import Mathlib

/-!
Verification of the PsychoHistory tree-generation core.

This file gives a shallow embedding, in Lean 4, of the parts of the
TypeScript source that the verified claims are about:

* `src/lib/llm/probability-analyzer.ts` — `normalizeProbabilities`,
  `analyzeProbabilities` (probabilities are modelled as exact rationals `ℚ`;
  the JS code computes with IEEE doubles, which is why the spec states its
  invariants with tolerances `10⁻³` and `10⁻⁶`; the rational model satisfies
  the same bounds exactly).
* `src/lib/tree/node-processor.ts` — `processNode`, `generateFallbackChildren`.
* `src/lib/tree/tree-builder.ts` — `TreeBuilder.buildTree` / `expandTree`
  (the depth-synchronous scheduling loop).
* `src/app/api/generate-tree/route.ts` and the stream route — the effective
  `maxDepth` computation `seed.maxDepth || 3`.
* `src/lib/llm/llm-client.ts` — `completeWithRetry`.
* `src/lib/research/search-engine.ts` (rate-limited variant) — the
  queue-based `RateLimiter`, `SearchEngine.search`, `SearchEngine.searchExa`
  with its retry ladder, and `mockSearch`.
* `src/lib/research/agentic-researcher.ts` — the per-iteration tool-call
  processing (duplicate-query suppression, domain-diversity filtering) and
  the no-progress termination check of `conductAgenticResearch`.

External effects (LLM completions, HTTP fetches, the wall clock) are
modelled as explicit oracle/environment parameters: an LLM call that can be
repeated is an environment function from the attempt index to its outcome,
a fetch is an environment function from the retry index to a `FetchOutcome`,
and the clock is the (monotone) list of times at which the rate limiter's
queue-processing loop runs a pass.
-/

/-- `Source` from `src/types/tree.ts`: `{url, title, snippet, relevanceScore?}`. -/
structure Source where
  url : String
  title : String
  snippet : String
  relevanceScore : Option ℚ
deriving DecidableEq, Repr

/-- `ProbabilityOutput` as validated by `ProbabilityOutputSchema` in
`probability-analyzer.ts`: `{event, probability, justification, sentiment}`. -/
structure ProbabilityOutput where
  event : String
  probability : ℚ
  justification : String
  sentiment : Int
deriving DecidableEq, Repr

/-- `outputs.reduce((acc, o) => acc + o.probability, 0)`. -/
def sumProbs (outputs : List ProbabilityOutput) : ℚ :=
  outputs.foldl (fun acc o => acc + o.probability) 0

/-- `normalizeProbabilities` from `probability-analyzer.ts` (lines 61–76):
if the probabilities sum to 0, give each of the `k` outputs probability
`1/k`; otherwise divide each probability by the sum.  All other fields are
copied unchanged (`{ ...o, probability: … }`). -/
def normalizeProbabilities (outputs : List ProbabilityOutput) : List ProbabilityOutput :=
  let sum := sumProbs outputs
  if sum = 0 then
    let equalProb : ℚ := 1 / outputs.length
    outputs.map (fun o => { o with probability := equalProb })
  else
    outputs.map (fun o => { o with probability := o.probability / sum })

/-- One conjunct of `ProbabilityOutputSchema` (zod): event length ≥ 10,
probability ∈ [0,1], justification length ≥ 20, sentiment ∈ [−100,100]. -/
def validOutput (o : ProbabilityOutput) : Bool :=
  decide (10 ≤ o.event.length) && decide (0 ≤ o.probability) && decide (o.probability ≤ 1) &&
    decide (20 ≤ o.justification.length) && decide (-100 ≤ o.sentiment) && decide (o.sentiment ≤ 100)

/-- `ProbabilityArraySchema`: an array of 1 to 5 valid outputs. -/
def validOutputs (outputs : List ProbabilityOutput) : Bool :=
  decide (1 ≤ outputs.length) && decide (outputs.length ≤ 5) && outputs.all validOutput

/-- The post-parse body of `analyzeProbabilities` (lines 37–54): normalize,
re-check that the sum is within `10⁻³` of 1, and renormalize once if not. -/
def analyzeProbabilities (outputs : List ProbabilityOutput) : List ProbabilityOutput :=
  let outputs1 := normalizeProbabilities outputs
  let sum := sumProbs outputs1
  if 1/1000 < |sum - 1| then normalizeProbabilities outputs1 else outputs1

/-- `ProcessingStatus` from `src/types/tree.ts`. -/
inductive ProcessingStatus where
  | pending
  | processing
  | completed
  | failed
deriving DecidableEq, Repr

/-- `EventNode` from `src/types/tree.ts` (ids are modelled as naturals drawn
from a counter instead of random UUIDs, and `createdAt` is omitted: no claim
mentions it).  A nested inductive because `children` holds `EventNode`s. -/
inductive EventNode where
  | mk (id : Nat) (event : String) (probability : ℚ) (justification : String)
      (sentiment : Int) (depth : Nat) (sources : List Source)
      (children : List EventNode) (parentId : Option Nat)
      (processingStatus : ProcessingStatus)

def EventNode.id : EventNode → Nat
  | .mk i _ _ _ _ _ _ _ _ _ => i

def EventNode.event : EventNode → String
  | .mk _ e _ _ _ _ _ _ _ _ => e

def EventNode.probability : EventNode → ℚ
  | .mk _ _ p _ _ _ _ _ _ _ => p

def EventNode.justification : EventNode → String
  | .mk _ _ _ j _ _ _ _ _ _ => j

def EventNode.sentiment : EventNode → Int
  | .mk _ _ _ _ s _ _ _ _ _ => s

def EventNode.depth : EventNode → Nat
  | .mk _ _ _ _ _ d _ _ _ _ => d

def EventNode.sources : EventNode → List Source
  | .mk _ _ _ _ _ _ s _ _ _ => s

def EventNode.children : EventNode → List EventNode
  | .mk _ _ _ _ _ _ _ c _ _ => c

def EventNode.parentId : EventNode → Option Nat
  | .mk _ _ _ _ _ _ _ _ p _ => p

def EventNode.processingStatus : EventNode → ProcessingStatus
  | .mk _ _ _ _ _ _ _ _ _ s => s

/-- The scheduler's mutation on success (`tree-builder.ts` lines 125–126):
`node.children = children; node.processingStatus = 'completed'`. -/
def EventNode.complete (n : EventNode) (cs : List EventNode) : EventNode :=
  match n with
  | .mk i e p j s d src _ pid _ => .mk i e p j s d src cs pid .completed

/-- Sum of the `probability` fields of a list of nodes. -/
def sumProbsN (cs : List EventNode) : ℚ :=
  (cs.map EventNode.probability).sum

/-- The environment of one tree build.  `research id` is the source list the
Phase-1 agentic research returns for the node with id `id`;
`synthesis id k` is the outcome of the `k`-th invocation of
`reasoningLLM.completeJSON` for that node: `.error` when the completion or
the JSON parse throws, `.ok outputs` for parsed JSON.  The pipeline in the
source calls `completeJSON` exactly once per node, so only attempt `0` is
ever consulted. -/
structure Oracle where
  research : Nat → List Source
  synthesis : Nat → Nat → Except Unit (List ProbabilityOutput)

/-- Child construction in `processNode` (node-processor, lines 98–110):
fresh id, the synthesized event and probability, fixed justification,
sentiment 0, `depth = parent.depth + 1`, the first 5 research sources,
no children yet, status pending. -/
def makeChildren (parentId : Nat) (parentDepth : Nat) (sources : List Source) :
    List ProbabilityOutput → Nat → List EventNode
  | [], _ => []
  | p :: rest, c =>
      EventNode.mk c p.event p.probability "Based on historical research and analysis" 0
          (parentDepth + 1) (sources.take 5) [] (some parentId) .pending ::
        makeChildren parentId parentDepth sources rest (c + 1)

/-- `generateFallbackChildren` (node-processor, lines 180–210): exactly two
children of probability 0.5 each, no sources, pending, sentiments 0 and −10,
events prefixed with the first 50 characters of the parent's event. -/
def generateFallbackChildren (node : EventNode) (c : Nat) : List EventNode :=
  [ EventNode.mk c ("Status quo continues from: " ++ node.event.take 50) (1/2)
      "No significant change detected" 0 (node.depth + 1) [] [] (some node.id) .pending,
    EventNode.mk (c + 1) ("Unexpected development from: " ++ node.event.take 50) (1/2)
      "Insufficient data for detailed prediction" (-10) (node.depth + 1) [] [] (some node.id)
      .pending ]

/-- `processNode` (node-processor, lines 12–130), with its external calls
resolved through the oracle and the uuid source replaced by a counter `c`:
Phase 1 yielding zero sources short-circuits to fallback; a Phase-2 throw
(`.error`, covering transport failures and unparseable JSON) is caught and
yields fallback; output failing the zod schema (`schema.parse` throwing
inside `completeJSON`) likewise yields fallback; otherwise the children are
built from the (re‑)normalized outputs.  Only synthesis attempt `0` exists:
the source calls `completeJSON` once, with no retry. -/
def processNode (oracle : Oracle) (node : EventNode) (c : Nat) : List EventNode × Nat :=
  let sources := oracle.research node.id
  if sources.length = 0 then (generateFallbackChildren node c, c + 2)
  else
    match oracle.synthesis node.id 0 with
    | .error _ => (generateFallbackChildren node c, c + 2)
    | .ok outputs =>
        if validOutputs outputs then
          let probs := analyzeProbabilities outputs
          (makeChildren node.id node.depth sources probs c, c + probs.length)
        else (generateFallbackChildren node c, c + 2)

/-- The tree state owned by the `TreeBuilder`: the by-id node collection
(as a list of nodes; `nodeMap` keys are the `id` fields) plus the fresh-id
counter standing in for the uuid source. -/
structure BuildState where
  nodes : List EventNode
  nextId : Nat

/-- The C1 invariant over a build state: every node with a non-empty
children list has children whose probability fields sum to exactly 1. -/
def ChildrenNormalized (st : BuildState) : Prop :=
  ∀ n ∈ st.nodes, n.children ≠ [] → sumProbsN n.children = 1

/-- One node's turn inside a wave (`expandTree` lines 109–165, success
path): run the pipeline, install the children on the node, mark it
completed, and register the children.  `processNode` never throws (it
catches all pipeline errors and returns fallback children), so the
`failed` branch of the source is unreachable and not modelled. -/
def stepNode (oracle : Oracle) (st : BuildState) (n : EventNode) : BuildState :=
  let r := processNode oracle n st.nextId
  { nodes := (st.nodes.map fun m => if m.id = n.id then m.complete r.1 else m) ++ r.1,
    nextId := r.2 }

/-- One depth level of `expandTree` (lines 89–175): collect the pending
nodes at depth `d` and process them.  The source dispatches them in
parallel batches of `maxConcurrent`; each node's result depends only on
that node and the oracle, and distinct pending nodes have distinct ids, so
the final state equals this sequential left-to-right fold. -/
def stepDepth (oracle : Oracle) (st : BuildState) (d : Nat) : BuildState :=
  let frontier := st.nodes.filter fun n =>
    n.depth == d && n.processingStatus == ProcessingStatus.pending
  frontier.foldl (stepNode oracle) st

/-- `buildTree` (tree-builder, lines 31–78): create the root (probability 1,
sentiment 0, depth 0, pending) and expand depth levels `0, …, maxDepth−1`.
The source's loop also exits early when the processing queue empties, but
running `stepDepth` on an empty frontier is the identity, so the folded
form is the same state. -/
def buildTree (oracle : Oracle) (seedEvent : String) (maxDepth : Nat) : BuildState :=
  let root := EventNode.mk 0 seedEvent 1 "Seed event" 0 0 [] [] none .pending
  (List.range maxDepth).foldl (stepDepth oracle) { nodes := [root], nextId := 1 }

/-- The effective `maxDepth` both generate-tree endpoints build with
(`route.ts` line 19 and the stream route line 31):
`new TreeBuilder(seed.maxDepth || 3, 20)`.  JS `||` falls through on the
falsy values `undefined` and `0`; no clamping is applied anywhere. -/
def routeEffectiveMaxDepth (maxDepth : Option Int) : Int :=
  match maxDepth with
  | none => 3
  | some d => if d = 0 then 3 else d

/-- `completeWithRetry` from `llm-client.ts` (lines 83–102), with the
awaited thunk modelled as the attempt-indexed outcome function `attempts`.
Returns the result together with the list of sleeps performed
(`delay * (i + 1)` before retry `i + 1`).  When every attempt fails the
source throws `lastError` (which is `undefined` when `maxRetries = 0`),
modelled as `.error (some e)` respectively `.error none`. -/
def completeWithRetryAux {E A : Type} (attempts : Nat → Except E A) (maxRetries delay : Nat)
    (lastError : Option E) (ds : List Nat) (i : Nat) : Except (Option E) A × List Nat :=
  if h : i < maxRetries then
    match attempts i with
    | .ok a => (.ok a, ds)
    | .error e =>
        completeWithRetryAux attempts maxRetries delay (some e)
          (if i < maxRetries - 1 then ds ++ [delay * (i + 1)] else ds) (i + 1)
  else (.error lastError, ds)
termination_by maxRetries - i

def completeWithRetry {E A : Type} (attempts : Nat → Except E A) (maxRetries delay : Nat) :
    Except (Option E) A × List Nat :=
  completeWithRetryAux attempts maxRetries delay none [] 0

/-- Outcome of one `fetch` of the search provider, as seen by `searchExa` /
`searchTavily`: either the fetch (or reading the body) threw at the network
level, or an HTTP response arrived with a status code and a parsed result
payload. -/
inductive FetchOutcome where
  | network (msg : String)
  | response (status : Nat) (payload : List Source)

/-- The errors `searchExa` can throw.  `rateLimitExhausted` is the
`Exa API rate limit exceeded after N retries` error — the only one whose
message contains `rate limit exceeded`, which the catch block tests with
`error.message.includes(...)` before rethrowing. -/
inductive ExaError where
  | rateLimitExhausted (retries : Nat)
  | apiError (status : Nat)
  | network (msg : String)

/-- `response.ok` in the fetch API: status in [200, 300). -/
def statusOk (status : Nat) : Bool :=
  decide (200 ≤ status) && decide (status < 300)

/-- `SearchEngine.searchExa` (rate-limited search-engine, lines 175–235).
`env n` is the fetch outcome of attempt `n` (the attempt at `retryCount =
n`).  Returns the result and the list of backoff sleeps performed, in
order.  Control flow of the source: a 429 retries with delay
`1000 * 2^retryCount` until `retryCount ≥ 5`, then throws the rate-limit
error; a non-ok status throws `Exa API error: …`, which the catch block
retries (its message does not contain `rate limit exceeded`) while
`retryCount < 5`; a network-level throw is retried the same way; recursive
calls are returned without `await`, so their failures propagate to the
caller unretried. -/
def searchExa (env : Nat → FetchOutcome) (retryCount : Nat) :
    Except ExaError (List Source) × List Nat :=
  match env retryCount with
  | .network msg =>
      if h : retryCount < 5 then
        let r := searchExa env (retryCount + 1)
        (r.1, 1000 * 2 ^ retryCount :: r.2)
      else (.error (.network msg), [])
  | .response status payload =>
      if status = 429 then
        if h : 5 ≤ retryCount then (.error (.rateLimitExhausted 5), [])
        else
          let r := searchExa env (retryCount + 1)
          (r.1, 1000 * 2 ^ retryCount :: r.2)
      else if statusOk status then (.ok payload, [])
      else
        if h : retryCount < 5 then
          let r := searchExa env (retryCount + 1)
          (r.1, 1000 * 2 ^ retryCount :: r.2)
        else (.error (.apiError status), [])
termination_by 5 - retryCount
decreasing_by
  · omega
  · omega
  · omega

/-- An attempt that the `searchExa` control flow does not return from
successfully: a network-level throw or a non-2xx status (429 included). -/
def transientFail (o : FetchOutcome) : Bool :=
  match o with
  | .network _ => true
  | .response status _ => !statusOk status

/-- `searchTavily` (same file, lines 237–264): a single fetch, no retries;
a non-ok status throws. -/
def searchTavily (env : Nat → FetchOutcome) : Except ExaError (List Source) :=
  match env 0 with
  | .network msg => .error (.network msg)
  | .response status payload =>
      if statusOk status then .ok payload else .error (.apiError status)

/-- `mockSearch` (same file, lines 266–276): `min(maxResults, 3)`
deterministic synthetic sources. -/
def mockSearch (query : String) (maxResults : Nat) : List Source :=
  (List.range (min maxResults 3)).map fun i =>
    { url := "https://example.com/research/" ++ toString (i + 1),
      title := "Research on " ++ query ++ " - Study " ++ toString (i + 1),
      snippet := "This study examines " ++ query ++
        " and found significant correlations with historical precedents. Key findings include...",
      relevanceScore := some (9 / 10 - (i : ℚ) * (1 / 10)) }

inductive SearchProvider where
  | exa
  | tavily
  | mock
deriving DecidableEq

/-- `SearchEngine.search` (rate-limited search-engine, lines 153–173).
`acquire` is the outcome of awaiting `rateLimiter.acquire()` (performed
only for the `exa` and `tavily` providers) and `env` feeds the provider
fetches.  The whole body sits in `try { … } catch { return [] }`: every
failure — limiter, provider call, or retry-ladder exhaustion — is caught
and the empty source list is returned. -/
def searchEngineSearch (provider : SearchProvider) (acquire : Except Unit Unit)
    (env : Nat → FetchOutcome) (query : String) (maxResults : Nat) : List Source :=
  let attempt : Except Unit (List Source) :=
    match provider with
    | .mock => .ok (mockSearch query maxResults)
    | .exa =>
        match acquire with
        | .error _ => .error ()
        | .ok _ =>
            match (searchExa env 0).1 with
            | .error _ => .error ()
            | .ok srcs => .ok srcs
    | .tavily =>
        match acquire with
        | .error _ => .error ()
        | .ok _ =>
            match searchTavily env with
            | .error _ => .error ()
            | .ok srcs => .ok srcs
  match attempt with
  | .error _ => []
  | .ok srcs => srcs

/-- `SearchConfig` fields relevant to rate limiting. -/
structure SearchConfig where
  provider : SearchProvider
  rateLimitPerMinute : Option Nat

/-- The `{limit, windowMs}` the `SearchEngine` constructor picks
(rate-limited search-engine, lines 141–151): `(5, 1000)` for `exa`,
otherwise `(config.rateLimitPerMinute || 60, 60000)` (JS `||`: `undefined`
and `0` fall through to 60). -/
def searchEngineLimiterParams (config : SearchConfig) : Nat × Nat :=
  if config.provider = .exa then (5, 1000)
  else
    match config.rateLimitPerMinute with
    | none => (60, 60000)
    | some r => (if r = 0 then 60 else r, 60000)

/-- The state of the queue-based `RateLimiter` (lines 84–135), abstracted
over the waiting callers: `timestamps` is the field of the same name and
`grants` records every grant (timestamp append + waiter resolution) ever
made, in order — the arrival times a test provider would stamp. -/
structure LimiterState where
  timestamps : List Nat
  grants : List Nat

/-- `now - timestamp < windowMs` filter of `processQueue` (line 114). -/
def pruneWindow (windowMs now : Nat) (ts : List Nat) : List Nat :=
  ts.filter fun t => now - t < windowMs

/-- One pass of the `processQueue` loop (lines 110–131) executed at clock
value `now`, with a waiter pending: discard timestamps outside the window;
if still at capacity do nothing but wait (the pass grants nobody);
otherwise release the next waiter and record `now`.  The `processing` flag
makes passes sequential, so an execution is a sequence of passes at
nondecreasing clock values. -/
def limiterPass (limit windowMs : Nat) (st : LimiterState) (now : Nat) : LimiterState :=
  let ts := pruneWindow windowMs now st.timestamps
  if limit ≤ ts.length then { timestamps := ts, grants := st.grants }
  else { timestamps := ts ++ [now], grants := st.grants ++ [now] }

/-- An execution of the rate limiter: fold the passes over the (monotone)
list of clock values at which the loop iterates, starting empty. -/
def limiterRun (limit windowMs : Nat) (nows : List Nat) : LimiterState :=
  nows.foldl (limiterPass limit windowMs) ⟨[], []⟩

/-- The sliding-window safety property of a grant-time sequence: any
`limit + 1` successive grants span at least `windowMs` — equivalently, for
the nondecreasing sequence of grant times, no window of length `windowMs`
contains more than `limit` grants (this is the form the spec's scenario S5
tests: `timestamps[5] − timestamps[0] ≥ 1000` for `{5, 1000}`). -/
def SpacedGrants (limit windowMs : Nat) (g : List Nat) : Prop :=
  ∀ i, (h : i + limit < g.length) →
    g.get ⟨i, by omega⟩ + windowMs ≤ g.get ⟨i + limit, h⟩

/-- Invariant of the rate limiter carried across passes, where `now` is the
clock value of the latest pass: the grant log is nondecreasing and bounded
by `now`; `timestamps` is a suffix of the grant log whose dropped prefix
has already left the window; and the grant log is well spaced. -/
def LimiterInv (limit windowMs now : Nat) (st : LimiterState) : Prop :=
  List.Sorted (· ≤ ·) st.grants ∧
  (∀ g ∈ st.grants, g ≤ now) ∧
  (∃ k, k ≤ st.grants.length ∧ st.timestamps = st.grants.drop k ∧
    ∀ g ∈ st.grants.take k, g + windowMs ≤ now) ∧
  SpacedGrants limit windowMs st.grants

/-- One tool call of an assistant message in `conductAgenticResearch`, with
its JSON arguments already decoded (`JSON.parse(toolCall.function.arguments)`);
only the fields the loop reads are kept. -/
structure ToolCall where
  name : String
  query : String

/-- Accumulation state of one `conductAgenticResearch` invocation:
`allSources`, `executedQueries`, `seenDomains`. -/
structure ResearchState where
  allSources : List Source
  executedQueries : List String
  seenDomains : List String

/-- The domain-diversity filter (agentic-researcher, lines 179–188):
walk the sources in order; drop a source whose hostname is already in
`seenDomains`, otherwise add the hostname and keep it; a source whose URL
fails to parse (`hostOf` returns `none`) is kept.  `hostOf` models
`new URL(url).hostname`. -/
def filterNewDomains (hostOf : String → Option String) (seen : List String) :
    List Source → List String × List Source
  | [] => (seen, [])
  | s :: rest =>
      match hostOf s.url with
      | some d =>
          if seen.contains d then filterNewDomains hostOf seen rest
          else
            let r := filterNewDomains hostOf (seen ++ [d]) rest
            (r.1, s :: r.2)
      | none =>
          let r := filterNewDomains hostOf seen rest
          (r.1, s :: r.2)

/-- Executing one `search` tool call (agentic-researcher, lines 159–216):
a query already in `executedQueries` is answered with
`{error: "Duplicate query"}` and not re-issued (state unchanged);
otherwise the query is recorded, the provider is called, the
domain-diversity filter is applied, and the surviving sources are appended
to `allSources`.  `searchEnv` models `defaultSearchEngine.search`. -/
def execSearchCall (hostOf : String → Option String) (searchEnv : String → List Source)
    (st : ResearchState) (query : String) : ResearchState :=
  if st.executedQueries.contains query then st
  else
    let sources := searchEnv query
    let r := filterNewDomains hostOf st.seenDomains sources
    { allSources := st.allSources ++ r.2,
      executedQueries := st.executedQueries ++ [query],
      seenDomains := r.1 }

/-- Processing the tool calls of one iteration's assistant message, in
declaration order, for an iteration that does not call `finish_research`
(when it does, the loop returns before any break check is reached). -/
def iterationExec (hostOf : String → Option String) (searchEnv : String → List Source)
    (st : ResearchState) (tcs : List ToolCall) : ResearchState :=
  tcs.foldl
    (fun s tc => if tc.name == "search" then execSearchCall hostOf searchEnv s tc.query else s) st

/-- `MIN_SOURCES` (agentic-researcher, line 63). -/
def MIN_SOURCES : Nat := 3

/-- The no-progress termination check of `conductAgenticResearch`
(lines 233–246), evaluated after an iteration's tool calls: the loop breaks
iff `allSources.length ≥ MIN_SOURCES`, `iteration ≥ 2`, and the iteration's
assistant message contains no tool call named `search`
(`assistantMessage.tool_calls?.some(tc => tc.function.name === 'search')`). -/
def noProgressBreak (sourceCount iteration : Nat) (toolCalls : List ToolCall) : Bool :=
  decide (MIN_SOURCES ≤ sourceCount) && decide (2 ≤ iteration) &&
    !(toolCalls.any fun tc => tc.name == "search")

/-- Modelled from the spec: the no-progress condition as the specification
words it — "accumulated ≥ MIN_SOURCES ∧ iteration ≥ 2 ∧ this iteration
issued no successful `search`", where a search suppressed as a duplicate
query does not count as successful.  `executed` is the query list as of the
start of the iteration; a successful search is a `search` tool call whose
query is not a duplicate of an earlier one. -/
def issuedSuccessfulSearch (executed : List String) : List ToolCall → Bool
  | [] => false
  | tc :: rest =>
      if tc.name == "search" then
        if executed.contains tc.query then issuedSuccessfulSearch executed rest
        else true
      else issuedSuccessfulSearch executed rest

/-- Modelled from the spec: the break condition as the claim states it. -/
def specNoProgressBreak (sourceCount iteration : Nat) (executed : List String)
    (toolCalls : List ToolCall) : Bool :=
  decide (MIN_SOURCES ≤ sourceCount) && decide (2 ≤ iteration) &&
    !(issuedSuccessfulSearch executed toolCalls)

-- ### Basic lemmas about normalization

theorem sumProbs_eq_sum_map (l : List ProbabilityOutput) :
    sumProbs l = (l.map (fun o => o.probability)).sum := by
  have key : ∀ (l : List ProbabilityOutput) (a : ℚ),
      l.foldl (fun acc o => acc + o.probability) a = a + (l.map (fun o => o.probability)).sum := by
    intro l
    induction l with
    | nil => intro a; simp
    | cons x xs ih => intro a; simp [List.foldl, ih, add_assoc]
  simpa [sumProbs] using key l 0

theorem sum_map_div (l : List ProbabilityOutput) (s : ℚ) :
    (l.map (fun o => o.probability / s)).sum = (l.map (fun o => o.probability)).sum / s := by
  induction l with
  | nil => simp
  | cons x xs ih => simp [ih, add_div]

theorem sum_map_const_rat (l : List ProbabilityOutput) (c : ℚ) :
    (l.map (fun _ => c)).sum = (l.length : ℚ) * c := by
  induction l with
  | nil => simp
  | cons x xs ih => simp [ih, add_mul]; ring

theorem normalize_of_sum_eq_zero (l : List ProbabilityOutput) (hs : sumProbs l = 0) :
    normalizeProbabilities l = l.map (fun o => { o with probability := (1 : ℚ) / l.length }) := by
  simp only [normalizeProbabilities]
  rw [if_pos hs]

theorem normalize_of_sum_ne_zero (l : List ProbabilityOutput) (hs : sumProbs l ≠ 0) :
    normalizeProbabilities l = l.map (fun o => { o with probability := o.probability / sumProbs l }) := by
  simp only [normalizeProbabilities]
  rw [if_neg hs]

/-- Normalization really normalizes: on a non-empty list the resulting
probabilities sum to exactly 1. -/
theorem sumProbs_normalize (l : List ProbabilityOutput) (hne : l ≠ []) :
    sumProbs (normalizeProbabilities l) = 1 := by
  have hlen : (0 : ℚ) < (l.length : ℚ) := by
    have : 0 < l.length := List.length_pos.mpr hne
    exact_mod_cast this
  by_cases hs : sumProbs l = 0
  · rw [normalize_of_sum_eq_zero l hs]
    rw [sumProbs_eq_sum_map]
    rw [List.map_map]
    have : ((fun o => o.probability) ∘ fun o : ProbabilityOutput =>
        { o with probability := (1 : ℚ) / l.length }) = fun _ => (1 : ℚ) / l.length := by
      funext o; rfl
    rw [this, sum_map_const_rat]
    field_simp
  · rw [normalize_of_sum_ne_zero l hs]
    rw [sumProbs_eq_sum_map, List.map_map]
    have : ((fun o => o.probability) ∘ fun o : ProbabilityOutput =>
        { o with probability := o.probability / sumProbs l }) =
        fun o : ProbabilityOutput => o.probability / sumProbs l := by
      funext o; rfl
    rw [this, sum_map_div, ← sumProbs_eq_sum_map]
    exact div_self hs

/-- After `analyzeProbabilities` the probabilities of a non-empty list sum
to exactly 1 (the re-normalization branch is never taken in the rational
model). -/
theorem sumProbs_analyze (l : List ProbabilityOutput) (hne : l ≠ []) :
    sumProbs (analyzeProbabilities l) = 1 := by
  have h1 := sumProbs_normalize l hne
  simp only [analyzeProbabilities, h1]
  norm_num [h1]

-- ### Claim C2 — functional correctness of normalizeProbabilities

/-- C2: for every non-empty list of probability outputs,
`normalizeProbabilities` returns: if the sum `s` of the input probabilities
is 0, a list assigning every one of the `k` items probability `1/k`;
otherwise a list where each output probability equals the corresponding
input probability divided by `s`, with all other fields unchanged
(stated as a pointwise `map` that rewrites only the `probability` field). -/
theorem normalizeProbabilities_correct (l : List ProbabilityOutput) (hne : l ≠ []) :
    normalizeProbabilities l =
      l.map (fun o =>
        { o with probability :=
            if sumProbs l = 0 then (1 : ℚ) / l.length else o.probability / sumProbs l }) := by
  by_cases hs : sumProbs l = 0
  · rw [normalize_of_sum_eq_zero l hs]
    apply List.map_congr_left
    intro o _
    simp [hs]
  · rw [normalize_of_sum_ne_zero l hs]
    apply List.map_congr_left
    intro o _
    simp [hs]

/-- Witness for C2 at a concrete input: a singleton list with probability 0
(sum 0) is assigned the equal distribution `1/1 = 1`. -/
theorem normalizeProbabilities_correct_witness :
    normalizeProbabilities [⟨"e", 0, "j", 0⟩] = [⟨"e", 1, "j", 0⟩] := by
  have h := normalizeProbabilities_correct [⟨"e", 0, "j", 0⟩] (by simp)
  simpa [sumProbs] using h

-- ### Claim C9 — idempotence of normalization

/-- C9: `normalizeProbabilities` is idempotent: if the input probabilities
already sum to 1, no probability changes by more than `10⁻⁶` (in the exact
rational model it changes by exactly 0). -/
theorem normalizeProbabilities_idempotent (l : List ProbabilityOutput)
    (h : sumProbs l = 1) :
    ∀ i (hi : i < l.length) (hi' : i < (normalizeProbabilities l).length),
      |((normalizeProbabilities l).get ⟨i, hi'⟩).probability -
          (l.get ⟨i, hi⟩).probability| ≤ 1 / 1000000 := by
  have hfix : normalizeProbabilities l = l := by
    have hs : sumProbs l ≠ 0 := by rw [h]; norm_num
    rw [normalize_of_sum_ne_zero l hs, h]
    have : (fun o : ProbabilityOutput => { o with probability := o.probability / 1 }) =
        fun o => o := by
      funext o
      simp
    rw [this]
    simp
  intro i hi hi'
  rw [List.get_of_eq hfix ⟨i, hi'⟩]
  norm_num

/-- Witness for C9 at the concrete already-normalized input `[0.5, 0.5]`. -/
theorem normalizeProbabilities_idempotent_witness :
    |((normalizeProbabilities [⟨"a", 1/2, "j", 0⟩, ⟨"b", 1/2, "j", 0⟩]).get
        ⟨0, by simp [normalizeProbabilities, sumProbs]⟩).probability -
      (([⟨"a", 1/2, "j", 0⟩, ⟨"b", 1/2, "j", 0⟩] :
          List ProbabilityOutput).get ⟨0, by simp⟩).probability| ≤ 1 / 1000000 := by
  exact normalizeProbabilities_idempotent [⟨"a", 1/2, "j", 0⟩, ⟨"b", 1/2, "j", 0⟩]
    (by simp [sumProbs]; norm_num) 0 (by simp) (by simp [normalizeProbabilities, sumProbs])

-- ### Claim C1 — children probabilities sum to 1 in every built tree

theorem sumProbs_cons (p : ProbabilityOutput) (rest : List ProbabilityOutput) :
    sumProbs (p :: rest) = p.probability + sumProbs rest := by
  rw [sumProbs_eq_sum_map, sumProbs_eq_sum_map]
  simp

@[simp] theorem complete_children (n : EventNode) (cs : List EventNode) :
    (n.complete cs).children = cs := by
  cases n
  rfl

@[simp] theorem complete_id (n : EventNode) (cs : List EventNode) :
    (n.complete cs).id = n.id := by
  cases n
  rfl

theorem sumProbsN_makeChildren (pid d : Nat) (srcs : List Source) :
    ∀ (probs : List ProbabilityOutput) (c : Nat),
      sumProbsN (makeChildren pid d srcs probs c) = sumProbs probs := by
  intro probs
  induction probs with
  | nil =>
      intro c
      simp [makeChildren, sumProbsN, sumProbs]
  | cons p rest ih =>
      intro c
      rw [sumProbs_cons]
      simp only [makeChildren, sumProbsN, List.map_cons, List.sum_cons]
      rw [show (EventNode.mk c p.event p.probability
          "Based on historical research and analysis" 0 (d + 1) (srcs.take 5) [] (some pid)
          .pending).probability = p.probability from rfl]
      have := ih (c + 1)
      simp only [sumProbsN] at this
      rw [this]

theorem sumProbsN_fallback (n : EventNode) (c : Nat) :
    sumProbsN (generateFallbackChildren n c) = 1 := by
  simp [generateFallbackChildren, sumProbsN, EventNode.probability]
  norm_num

theorem makeChildren_children_nil (pid d : Nat) (srcs : List Source) :
    ∀ (probs : List ProbabilityOutput) (c : Nat) (ch : EventNode),
      ch ∈ makeChildren pid d srcs probs c → ch.children = [] := by
  intro probs
  induction probs with
  | nil =>
      intro c ch h
      simp [makeChildren] at h
  | cons p rest ih =>
      intro c ch h
      simp only [makeChildren, List.mem_cons] at h
      rcases h with h | h
      · subst h
        rfl
      · exact ih (c + 1) ch h

theorem fallback_children_nil (n : EventNode) (c : Nat) :
    ∀ ch ∈ generateFallbackChildren n c, ch.children = [] := by
  intro ch h
  simp only [generateFallbackChildren, List.mem_cons] at h
  rcases h with h | h | h
  · subst h; rfl
  · subst h; rfl
  · simp at h

/-- Defining equation of `processNode`: zero research sources. -/
theorem processNode_eq_noSources (oracle : Oracle) (n : EventNode) (c : Nat)
    (h : (oracle.research n.id).length = 0) :
    processNode oracle n c = (generateFallbackChildren n c, c + 2) := by
  simp only [processNode]
  rw [if_pos h]

/-- Defining equation of `processNode`: Phase 2 throws. -/
theorem processNode_eq_synthesisError (oracle : Oracle) (n : EventNode) (c : Nat)
    (hsrc : (oracle.research n.id).length ≠ 0) (hsyn : oracle.synthesis n.id 0 = .error ()) :
    processNode oracle n c = (generateFallbackChildren n c, c + 2) := by
  simp only [processNode]
  rw [if_neg hsrc, hsyn]

/-- Defining equation of `processNode`: Phase 2 returns schema-valid output. -/
theorem processNode_eq_valid (oracle : Oracle) (n : EventNode) (c : Nat)
    (hsrc : (oracle.research n.id).length ≠ 0) (outputs : List ProbabilityOutput)
    (hsyn : oracle.synthesis n.id 0 = .ok outputs) (hv : validOutputs outputs = true) :
    processNode oracle n c =
      (makeChildren n.id n.depth (oracle.research n.id) (analyzeProbabilities outputs) c,
        c + (analyzeProbabilities outputs).length) := by
  simp only [processNode]
  rw [if_neg hsrc, hsyn]
  simp only [hv, if_true]

/-- Defining equation of `processNode`: Phase 2 output fails the schema. -/
theorem processNode_eq_invalid (oracle : Oracle) (n : EventNode) (c : Nat)
    (hsrc : (oracle.research n.id).length ≠ 0) (outputs : List ProbabilityOutput)
    (hsyn : oracle.synthesis n.id 0 = .ok outputs) (hv : ¬ validOutputs outputs = true) :
    processNode oracle n c = (generateFallbackChildren n c, c + 2) := by
  simp only [processNode]
  rw [if_neg hsrc, hsyn]
  simp [hv]

/-- The children returned by the per-node pipeline always have probability
fields summing to exactly 1: fallback children are `0.5 + 0.5`, and
synthesized children carry (re-)normalized probabilities. -/
theorem processNode_sum (oracle : Oracle) (n : EventNode) (c : Nat) :
    sumProbsN (processNode oracle n c).1 = 1 := by
  by_cases hsrc : (oracle.research n.id).length = 0
  · rw [processNode_eq_noSources oracle n c hsrc]
    exact sumProbsN_fallback n c
  · cases hsyn : oracle.synthesis n.id 0 with
    | error e =>
        rw [processNode_eq_synthesisError oracle n c hsrc (by cases e; exact hsyn)]
        exact sumProbsN_fallback n c
    | ok outputs =>
        by_cases hv : validOutputs outputs = true
        · rw [processNode_eq_valid oracle n c hsrc outputs hsyn hv]
          rw [sumProbsN_makeChildren]
          apply sumProbs_analyze
          intro hnil
          subst hnil
          simp [validOutputs] at hv
        · rw [processNode_eq_invalid oracle n c hsrc outputs hsyn hv]
          exact sumProbsN_fallback n c

theorem processNode_children_nil (oracle : Oracle) (n : EventNode) (c : Nat) :
    ∀ ch ∈ (processNode oracle n c).1, ch.children = [] := by
  intro ch h
  by_cases hsrc : (oracle.research n.id).length = 0
  · rw [processNode_eq_noSources oracle n c hsrc] at h
    exact fallback_children_nil n c ch h
  · cases hsyn : oracle.synthesis n.id 0 with
    | error e =>
        rw [processNode_eq_synthesisError oracle n c hsrc (by cases e; exact hsyn)] at h
        exact fallback_children_nil n c ch h
    | ok outputs =>
        by_cases hv : validOutputs outputs = true
        · rw [processNode_eq_valid oracle n c hsrc outputs hsyn hv] at h
          exact makeChildren_children_nil n.id n.depth _ _ c ch h
        · rw [processNode_eq_invalid oracle n c hsrc outputs hsyn hv] at h
          exact fallback_children_nil n c ch h

theorem stepNode_preserves (oracle : Oracle) (st : BuildState) (n : EventNode)
    (h : ChildrenNormalized st) : ChildrenNormalized (stepNode oracle st n) := by
  intro m hm hne
  simp only [stepNode, List.mem_append] at hm
  rcases hm with hm | hm
  · rcases List.mem_map.mp hm with ⟨m₀, hm₀, rfl⟩
    by_cases hid : m₀.id = n.id
    · rw [if_pos hid] at hne ⊢
      rw [complete_children]
      exact processNode_sum oracle n st.nextId
    · rw [if_neg hid] at hne ⊢
      exact h m₀ hm₀ hne
  · exact absurd (processNode_children_nil oracle n st.nextId m hm) hne

theorem foldl_stepNode_preserves (oracle : Oracle) :
    ∀ (frontier : List EventNode) (st : BuildState), ChildrenNormalized st →
      ChildrenNormalized (frontier.foldl (stepNode oracle) st) := by
  intro frontier
  induction frontier with
  | nil => intro st h; exact h
  | cons n rest ih =>
      intro st h
      exact ih (stepNode oracle st n) (stepNode_preserves oracle st n h)

theorem stepDepth_preserves (oracle : Oracle) (st : BuildState) (d : Nat)
    (h : ChildrenNormalized st) : ChildrenNormalized (stepDepth oracle st d) :=
  foldl_stepNode_preserves oracle _ st h

theorem foldl_stepDepth_preserves (oracle : Oracle) :
    ∀ (ds : List Nat) (st : BuildState), ChildrenNormalized st →
      ChildrenNormalized (ds.foldl (stepDepth oracle) st) := by
  intro ds
  induction ds with
  | nil => intro st h; exact h
  | cons d rest ih =>
      intro st h
      exact ih (stepDepth oracle st d) (stepDepth_preserves oracle st d h)

/-- C1: in every tree returned by `TreeBuilder.buildTree`, the probability
fields of every node's non-empty children list sum to 1 within `10⁻³`
(in the exact rational model they sum to exactly 1; this covers both
synthesized children, normalized in Phase 2, and the two 0.5 fallback
children). -/
theorem buildTree_children_sum_within_tolerance (oracle : Oracle) (seedEvent : String)
    (maxDepth : Nat) :
    ∀ n ∈ (buildTree oracle seedEvent maxDepth).nodes, n.children ≠ [] →
      |sumProbsN n.children - 1| ≤ 1 / 1000 := by
  have hinit : ChildrenNormalized
      ⟨[EventNode.mk 0 seedEvent 1 "Seed event" 0 0 [] [] none .pending], 1⟩ := by
    intro n hn hne
    simp only [List.mem_singleton] at hn
    subst hn
    exact absurd rfl hne
  have h := foldl_stepDepth_preserves oracle (List.range maxDepth) _ hinit
  intro n hn hne
  have := h n hn hne
  rw [this]
  norm_num

/-- Witness for C1: building with `maxDepth = 1` under an oracle whose
research always comes back empty produces a root completed with the two
fallback children, and their probabilities sum to 1 within `10⁻³`. -/
theorem buildTree_children_sum_within_tolerance_witness :
    |sumProbsN ((EventNode.mk 0 "X" 1 "Seed event" 0 0 [] [] none .pending).complete
        (generateFallbackChildren
          (EventNode.mk 0 "X" 1 "Seed event" 0 0 [] [] none .pending) 1)).children - 1|
      ≤ 1 / 1000 := by
  refine buildTree_children_sum_within_tolerance
    ⟨fun _ => [], fun _ _ => .error ()⟩ "X" 1 _ ?_ ?_
  · have h : (buildTree ⟨fun _ => [], fun _ _ => .error ()⟩ "X" 1).nodes =
        ((EventNode.mk 0 "X" 1 "Seed event" 0 0 [] [] none .pending).complete
          (generateFallbackChildren
            (EventNode.mk 0 "X" 1 "Seed event" 0 0 [] [] none .pending) 1)) ::
        generateFallbackChildren
          (EventNode.mk 0 "X" 1 "Seed event" 0 0 [] [] none .pending) 1 := by
      rfl
    rw [h]
    exact List.mem_cons_self _ _
  · rw [complete_children]
    simp [generateFallbackChildren]

-- ### Claim C8 — fallback children shape

/-- C8: whenever Phase-1 research returns zero sources, or Phase 2 throws,
`processNode` returns exactly the two fallback children: "Status quo
continues from: …" with sentiment 0 and "Unexpected development from: …"
with sentiment −10, both with probability 0.5, empty sources, status
pending, and depth = parent.depth + 1. -/
theorem processNode_fallback_shape (oracle : Oracle) (n : EventNode) (c : Nat)
    (h : oracle.research n.id = [] ∨ oracle.synthesis n.id 0 = .error ()) :
    (processNode oracle n c).1 = generateFallbackChildren n c ∧
    (processNode oracle n c).1.length = 2 ∧
    ∃ c₀ c₁, (processNode oracle n c).1 = [c₀, c₁] ∧
      c₀.event = "Status quo continues from: " ++ n.event.take 50 ∧
      c₀.probability = 1/2 ∧ c₀.sentiment = 0 ∧ c₀.sources = [] ∧
      c₀.processingStatus = .pending ∧ c₀.depth = n.depth + 1 ∧
      c₁.event = "Unexpected development from: " ++ n.event.take 50 ∧
      c₁.probability = 1/2 ∧ c₁.sentiment = -10 ∧ c₁.sources = [] ∧
      c₁.processingStatus = .pending ∧ c₁.depth = n.depth + 1 := by
  have heq : (processNode oracle n c).1 = generateFallbackChildren n c := by
    rcases h with h | h
    · rw [processNode_eq_noSources oracle n c (by rw [h]; rfl)]
    · by_cases hsrc : (oracle.research n.id).length = 0
      · rw [processNode_eq_noSources oracle n c hsrc]
      · rw [processNode_eq_synthesisError oracle n c hsrc h]
  refine ⟨heq, by rw [heq]; rfl, ?_⟩
  refine ⟨EventNode.mk c ("Status quo continues from: " ++ n.event.take 50) (1/2)
      "No significant change detected" 0 (n.depth + 1) [] [] (some n.id) .pending,
    EventNode.mk (c + 1) ("Unexpected development from: " ++ n.event.take 50) (1/2)
      "Insufficient data for detailed prediction" (-10) (n.depth + 1) [] [] (some n.id) .pending,
    by rw [heq]; rfl,
    rfl, rfl, rfl, rfl, rfl, rfl, rfl, rfl, rfl, rfl, rfl, rfl⟩

/-- Witness for C8 at a concrete node and zero-research oracle. -/
theorem processNode_fallback_shape_witness :
    (processNode ⟨fun _ => [], fun _ _ => .error ()⟩
        (EventNode.mk 0 "X" 1 "j" 0 0 [] [] none .pending) 1).1 =
      generateFallbackChildren (EventNode.mk 0 "X" 1 "j" 0 0 [] [] none .pending) 1 :=
  (processNode_fallback_shape ⟨fun _ => [], fun _ _ => .error ()⟩
    (EventNode.mk 0 "X" 1 "j" 0 0 [] [] none .pending) 1 (Or.inl rfl)).1

-- ### Claim C4 — Phase-2 retry behaviour (corrected: there is no retry)

/-- Counterexample to C4 as stated: an oracle whose first synthesis attempt
throws (schema failure) but whose second attempt would return schema-valid
output.  Were the completion retried even once, the node would get valid
children; instead `processNode` immediately returns the fallback children —
`analyzeProbabilities` calls `completeJSON` exactly once and
`completeWithRetry` has no call site. -/
theorem phase2_retry_counterexample :
    validOutputs [⟨"A sufficiently long event", 1,
        "a justification of at least twenty characters", 0⟩] = true ∧
    (⟨fun _ => [⟨"https://example.com/1", "t", "s", none⟩],
        fun _ k => if k = 0 then .error () else .ok [⟨"A sufficiently long event", 1,
          "a justification of at least twenty characters", 0⟩]⟩ : Oracle).synthesis 0 1 =
      .ok [⟨"A sufficiently long event", 1,
        "a justification of at least twenty characters", 0⟩] ∧
    (processNode ⟨fun _ => [⟨"https://example.com/1", "t", "s", none⟩],
        fun _ k => if k = 0 then .error () else .ok [⟨"A sufficiently long event", 1,
          "a justification of at least twenty characters", 0⟩]⟩
        (EventNode.mk 0 "X" 1 "j" 0 0 [] [] none .pending) 1).1 =
      generateFallbackChildren (EventNode.mk 0 "X" 1 "j" 0 0 [] [] none .pending) 1 := by
  refine ⟨by decide, rfl, ?_⟩
  rw [processNode_eq_synthesisError _ _ _ (by simp) rfl]

/-- C4 as amended: Phase 2 performs no retries — the synthesis completion
is attempted exactly once, and any failure of that single attempt
immediately short-circuits the node to fallback children.  The second
conjunct states that `processNode` depends only on synthesis attempt 0:
changing every later attempt changes nothing. -/
theorem phase2_no_retry (oracle : Oracle) (n : EventNode) (c : Nat)
    (h : oracle.synthesis n.id 0 = .error ()) :
    (processNode oracle n c).1 = generateFallbackChildren n c ∧
    ∀ oracle' : Oracle, oracle'.research = oracle.research →
      (∀ id, oracle'.synthesis id 0 = oracle.synthesis id 0) →
      processNode oracle' n c = processNode oracle n c := by
  constructor
  · by_cases hsrc : (oracle.research n.id).length = 0
    · rw [processNode_eq_noSources oracle n c hsrc]
    · rw [processNode_eq_synthesisError oracle n c hsrc h]
  · intro oracle' hr hs
    simp only [processNode, hr, hs n.id]

/-- Witness for the amended C4 at a concrete oracle with non-empty research
and a failing first synthesis attempt. -/
theorem phase2_no_retry_witness :
    (processNode ⟨fun _ => [⟨"https://example.com/1", "t", "s", none⟩], fun _ _ => .error ()⟩
        (EventNode.mk 0 "X" 1 "j" 0 0 [] [] none .pending) 3).1 =
      generateFallbackChildren (EventNode.mk 0 "X" 1 "j" 0 0 [] [] none .pending) 3 :=
  (phase2_no_retry ⟨fun _ => [⟨"https://example.com/1", "t", "s", none⟩], fun _ _ => .error ()⟩
    (EventNode.mk 0 "X" 1 "j" 0 0 [] [] none .pending) 3 rfl).1

-- ### Claim C3 — effective maxDepth of the generate-tree endpoints
-- (corrected: there is no clamping)

/-- Counterexample to C3 as stated: a request carrying `maxDepth = 7`
constructs the `TreeBuilder` with `maxDepth = 7` — outside `[1,5]` — since
both endpoints compute `seed.maxDepth || 3` and never clamp. -/
theorem routeMaxDepth_counterexample :
    routeEffectiveMaxDepth (some 7) = 7 ∧ ¬ routeEffectiveMaxDepth (some 7) ≤ 5 := by
  constructor
  · rfl
  · decide

/-- C3 as amended: the effective maxDepth defaults to 3 when the request's
`maxDepth` is absent — or `0`, which JS `||` also treats as falsy — and is
otherwise passed through unclamped, so values outside `[1,5]` are used
as-is. -/
theorem routeMaxDepth_amended :
    routeEffectiveMaxDepth none = 3 ∧
    routeEffectiveMaxDepth (some 0) = 3 ∧
    (∀ d : Int, d ≠ 0 → routeEffectiveMaxDepth (some d) = d) := by
  refine ⟨rfl, rfl, ?_⟩
  intro d hd
  simp [routeEffectiveMaxDepth, hd]

/-- Witness for the amended C3 at the concrete depth 7. -/
theorem routeMaxDepth_amended_witness :
    routeEffectiveMaxDepth (some 7) = 7 :=
  routeMaxDepth_amended.2.2 7 (by decide)

-- ### Claim C7 — no-progress termination of the agentic loop
-- (corrected: the code tests for the presence of a `search` tool call,
-- not for a successful search)

/-- Counterexample to C7 as stated: an iteration whose only tool call is a
`search` with a duplicate query.  The duplicate is suppressed — the
iteration state, in particular the accumulated source count, is unchanged —
yet `noProgressBreak` is `false` (the loop keeps going) because
`tool_calls.some(name === 'search')` only looks at tool-call names, while
the claim's condition (`specNoProgressBreak`) demands a break. -/
theorem noProgress_counterexample :
    noProgressBreak 3 2 [⟨"search", "q"⟩] = false ∧
    specNoProgressBreak 3 2 ["q"] [⟨"search", "q"⟩] = true ∧
    iterationExec (fun _ => none) (fun _ => [])
        ⟨[⟨"u1", "t", "s", none⟩, ⟨"u2", "t", "s", none⟩, ⟨"u3", "t", "s", none⟩], ["q"], []⟩
        [⟨"search", "q"⟩] =
      ⟨[⟨"u1", "t", "s", none⟩, ⟨"u2", "t", "s", none⟩, ⟨"u3", "t", "s", none⟩], ["q"], []⟩ := by
  refine ⟨rfl, rfl, rfl⟩

/-- C7 as amended: after an iteration's tool calls the loop breaks exactly
when the accumulated sources are at least `MIN_SOURCES`, the iteration
index is at least 2, and the iteration's assistant message contained no
tool call named `search` — a `search` suppressed as a duplicate query still
counts as a search and prevents the break. -/
theorem noProgressBreak_amended (sourceCount iteration : Nat) (toolCalls : List ToolCall) :
    noProgressBreak sourceCount iteration toolCalls = true ↔
      (MIN_SOURCES ≤ sourceCount ∧ 2 ≤ iteration ∧ ∀ tc ∈ toolCalls, tc.name ≠ "search") := by
  simp only [noProgressBreak, Bool.and_eq_true, Bool.not_eq_true', List.any_eq_false,
    decide_eq_true_eq, beq_iff_eq]
  tauto

/-- Witness for the amended C7 at a concrete iteration whose only tool call
is `finish_research`-shaped, with 5 sources at iteration 3. -/
theorem noProgressBreak_amended_witness :
    noProgressBreak 5 3 [⟨"finish_research", ""⟩] = true :=
  (noProgressBreak_amended 5 3 [⟨"finish_research", ""⟩]).mpr
    ⟨by decide, by decide, by simp⟩

-- ### Claim C10 — SearchEngine.search never raises

/-- C10: for every provider behaviour, `SearchEngine.search` returns a
plain source list: a rate-limiter failure, a provider failure, or
retry-ladder exhaustion is swallowed by the surrounding `try/catch` and
surfaces as the empty list, and a successful provider call's sources are
returned as-is — callers observe failure only as zero new sources. -/
theorem searchEngineSearch_never_raises (provider : SearchProvider) (acquire : Except Unit Unit)
    (env : Nat → FetchOutcome) (query : String) (maxResults : Nat) :
    (provider ≠ .mock → acquire = .error () →
      searchEngineSearch provider acquire env query maxResults = []) ∧
    (∀ e, (searchExa env 0).1 = .error e →
      searchEngineSearch .exa acquire env query maxResults = []) ∧
    (∀ e, searchTavily env = .error e →
      searchEngineSearch .tavily acquire env query maxResults = []) ∧
    (∀ srcs, acquire = .ok () → (searchExa env 0).1 = .ok srcs →
      searchEngineSearch .exa acquire env query maxResults = srcs) ∧
    (∀ srcs, acquire = .ok () → searchTavily env = .ok srcs →
      searchEngineSearch .tavily acquire env query maxResults = srcs) ∧
    searchEngineSearch .mock acquire env query maxResults = mockSearch query maxResults := by
  refine ⟨?_, ?_, ?_, ?_, ?_, ?_⟩
  · intro hp ha
    cases provider with
    | mock => exact absurd rfl hp
    | exa => subst ha; rfl
    | tavily => subst ha; rfl
  · intro e he
    cases acquire with
    | error u => rfl
    | ok u =>
        simp only [searchEngineSearch]
        rw [he]
  · intro e he
    cases acquire with
    | error u => rfl
    | ok u =>
        simp only [searchEngineSearch]
        rw [he]
  · intro srcs ha he
    subst ha
    simp only [searchEngineSearch]
    rw [he]
  · intro srcs ha he
    subst ha
    simp only [searchEngineSearch]
    rw [he]
  · rfl

/-- Witness for C10: a failed limiter acquisition on the exa provider
yields the empty source list. -/
theorem searchEngineSearch_never_raises_witness :
    searchEngineSearch .exa (.error ()) (fun _ => .response 200 []) "q" 5 = [] :=
  (searchEngineSearch_never_raises .exa (.error ()) (fun _ => .response 200 []) "q" 5).1
    (by decide) rfl

-- ### Claim C5 — searchExa retry ladder
-- (corrected: non-429 HTTP errors are retried too)

/-- A transiently failing attempt below the retry cap steps to the next
retry after a backoff of `1000 * 2^retryCount` ms. -/
theorem searchExa_step (env : Nat → FetchOutcome) (rc : Nat) (hrc : rc < 5)
    (hf : transientFail (env rc) = true) :
    searchExa env rc =
      ((searchExa env (rc + 1)).1, 1000 * 2 ^ rc :: (searchExa env (rc + 1)).2) := by
  cases henv : env rc with
  | network msg =>
      rw [searchExa, henv]
      simp only [dif_pos hrc]
  | response status payload =>
      rw [searchExa, henv]
      simp only [henv, transientFail] at hf
      by_cases h429 : status = 429
      · simp only [if_pos h429, dif_neg (show ¬ 5 ≤ rc by omega)]
      · have hok : statusOk status = false := by
          cases hs : statusOk status
          · rfl
          · rw [hs] at hf
            simp at hf
        simp only [if_neg h429, hok, Bool.false_eq_true, if_false, dif_pos hrc]

/-- A 2xx response returns its payload with no further delay. -/
theorem searchExa_success (env : Nat → FetchOutcome) (rc status : Nat)
    (payload : List Source) (henv : env rc = .response status payload)
    (hok : statusOk status = true) :
    searchExa env rc = (.ok payload, []) := by
  rw [searchExa, henv]
  have h429 : ¬ status = 429 := by
    intro h
    subst h
    simp [statusOk] at hok
  simp only [if_neg h429, hok, if_true]

/-- At `retryCount = 5` a transient failure is thrown to the caller:
the 429 branch throws the descriptive rate-limit error, and the catch
block rethrows everything else because `retryCount < maxRetries` fails. -/
theorem searchExa_exhausted (env : Nat → FetchOutcome) (hf : transientFail (env 5) = true) :
    ∃ e, searchExa env 5 = (.error e, []) := by
  cases henv : env 5 with
  | network msg =>
      refine ⟨.network msg, ?_⟩
      rw [searchExa, henv]
      simp only [dif_neg (show ¬ (5 : Nat) < 5 by omega)]
  | response status payload =>
      simp only [henv, transientFail] at hf
      by_cases h429 : status = 429
      · refine ⟨.rateLimitExhausted 5, ?_⟩
        rw [searchExa, henv]
        simp only [if_pos h429, dif_pos (show (5 : Nat) ≤ 5 by omega)]
      · refine ⟨.apiError status, ?_⟩
        rw [searchExa, henv]
        have hok : statusOk status = false := by
          cases hs : statusOk status
          · rfl
          · rw [hs] at hf
            simp at hf
        simp only [if_neg h429, hok, Bool.false_eq_true, if_false,
          dif_neg (show ¬ (5 : Nat) < 5 by omega)]

theorem searchExa_ok_after (env : Nat → FetchOutcome) :
    ∀ (k rc : Nat), rc + k ≤ 5 →
      (∀ i, i < k → transientFail (env (rc + i)) = true) →
      ∀ (status : Nat) (payload : List Source),
        env (rc + k) = .response status payload → statusOk status = true →
        searchExa env rc = (.ok payload, (List.range k).map fun i => 1000 * 2 ^ (rc + i)) := by
  intro k
  induction k with
  | zero =>
      intro rc hb hfail status payload henv hok
      simpa using searchExa_success env rc status payload (by simpa using henv) hok
  | succ k ih =>
      intro rc hb hfail status payload henv hok
      have hstep := searchExa_step env rc (by omega)
        (by simpa using hfail 0 (by omega))
      rw [hstep]
      have hrec := ih (rc + 1) (by omega)
        (fun i hi => by
          have := hfail (i + 1) (by omega)
          simpa [Nat.add_assoc, Nat.add_comm 1 i] using this)
        status payload (by rw [show rc + 1 + k = rc + (k + 1) by omega]; exact henv) hok
      have hdel : ((List.range (k + 1)).map fun i => 1000 * 2 ^ (rc + i)) =
          1000 * 2 ^ rc :: ((List.range k).map fun i => 1000 * 2 ^ (rc + 1 + i)) := by
        rw [List.range_succ_eq_map]
        simp only [List.map_cons, Nat.add_zero, List.map_map]
        congr 1
        apply List.map_congr_left
        intro i _
        simp only [Function.comp_apply]
        rw [show rc + Nat.succ i = rc + 1 + i by omega]
      rw [hrec, hdel]

theorem searchExa_err_all (env : Nat → FetchOutcome) :
    ∀ (m rc : Nat), rc + m = 5 →
      (∀ i, rc ≤ i → i ≤ 5 → transientFail (env i) = true) →
      ∃ e, searchExa env rc = (.error e, (List.range m).map fun i => 1000 * 2 ^ (rc + i)) := by
  intro m
  induction m with
  | zero =>
      intro rc hb hfail
      have h5 : rc = 5 := by omega
      subst h5
      simpa using searchExa_exhausted env (hfail 5 (by omega) (by omega))
  | succ m ih =>
      intro rc hb hfail
      have hstep := searchExa_step env rc (by omega)
        (hfail rc (by omega) (by omega))
      obtain ⟨e, he⟩ := ih (rc + 1) (by omega)
        (fun i hi hi5 => hfail i (by omega) hi5)
      refine ⟨e, ?_⟩
      have hdel : ((List.range (m + 1)).map fun i => 1000 * 2 ^ (rc + i)) =
          1000 * 2 ^ rc :: ((List.range m).map fun i => 1000 * 2 ^ (rc + 1 + i)) := by
        rw [List.range_succ_eq_map]
        simp only [List.map_cons, Nat.add_zero, List.map_map]
        congr 1
        apply List.map_congr_left
        intro i _
        simp only [Function.comp_apply]
        rw [show rc + Nat.succ i = rc + 1 + i by omega]
      rw [hstep, he, hdel]

/-- Counterexample to C5 as stated: a provider that always answers HTTP 404
(a non-429 4xx).  The claim says such errors are never retried, but the
catch block retries them with the full backoff ladder `1s, 2s, 4s, 8s, 16s`
before failing. -/
theorem searchExa_counterexample_404 :
    (searchExa (fun _ => .response 404 []) 0).2 = [1000, 2000, 4000, 8000, 16000] ∧
    ∃ e, (searchExa (fun _ => .response 404 []) 0).1 = .error e := by
  obtain ⟨e, he⟩ := searchExa_err_all (fun _ => .response 404 []) 5 0 (by omega)
    (fun i _ _ => (by decide : transientFail (FetchOutcome.response 404 []) = true))
  have hd : ((List.range 5).map fun i => 1000 * 2 ^ (0 + i)) =
      [1000, 2000, 4000, 8000, 16000] := by decide
  rw [hd] at he
  exact ⟨by rw [he], ⟨e, by rw [he]⟩⟩

/-- C5 as amended: on an HTTP 429 **or any other failing attempt** (network
error or non-2xx status alike), `searchExa` retries with exponential
backoff `1s, 2s, 4s, 8s, 16s` for at most 5 retries, then fails with a
descriptive error; a success within the budget returns the payload after
exactly one backoff per preceding failure.  Non-429 provider errors are
retried the same way rather than failing fast; only the rate-limit
exhaustion error is rethrown without further retries. -/
theorem searchExa_retry_ladder (env : Nat → FetchOutcome) :
    (∀ (k status : Nat) (payload : List Source), k ≤ 5 →
      (∀ i, i < k → transientFail (env i) = true) →
      env k = .response status payload → statusOk status = true →
      searchExa env 0 = (.ok payload, (List.range k).map fun i => 1000 * 2 ^ i)) ∧
    ((∀ i, i ≤ 5 → transientFail (env i) = true) →
      ∃ e, searchExa env 0 = (.error e, [1000, 2000, 4000, 8000, 16000])) := by
  constructor
  · intro k status payload hk hfail henv hok
    have := searchExa_ok_after env k 0 (by omega) (fun i hi => by simpa using hfail i hi)
      status payload (by simpa using henv) hok
    rw [this]
    simp
  · intro hfail
    obtain ⟨e, he⟩ := searchExa_err_all env 5 0 (by omega) (fun i _ hi5 => hfail i hi5)
    refine ⟨e, ?_⟩
    rw [he]
    have hd : ((List.range 5).map fun i => 1000 * 2 ^ (0 + i)) =
        [1000, 2000, 4000, 8000, 16000] := by decide
    rw [hd]

/-- Witness for the amended C5: one 429 followed by a 200 retries once
after a 1 s backoff and returns the payload. -/
theorem searchExa_retry_ladder_witness :
    searchExa (fun n => if n = 0 then .response 429 [] else .response 200 []) 0 =
      (.ok [], [1000]) := by
  have h := (searchExa_retry_ladder
    (fun n => if n = 0 then .response 429 [] else .response 200 [])).1 1 200 [] (by omega)
    (fun i hi => by
      have h0 : i = 0 := by omega
      subst h0
      decide)
    rfl (by decide)
  rw [h]
  rfl

-- ### Claim C6 — sliding-window rate limiter safety

theorem get_append_last (l : List Nat) (a : Nat) (h : l.length < (l ++ [a]).length) :
    (l ++ [a]).get ⟨l.length, h⟩ = a := by
  induction l with
  | nil => rfl
  | cons x xs ih => simpa using ih (by simpa using Nat.lt_succ_self xs.length)

theorem filter_upward_sorted (p : Nat → Bool)
    (hmono : ∀ a b, a ≤ b → p a = true → p b = true) :
    ∀ l : List Nat, List.Sorted (· ≤ ·) l →
      ∃ k, k ≤ l.length ∧ l.filter p = l.drop k ∧ ∀ x ∈ l.take k, p x = false := by
  intro l
  induction l with
  | nil => exact fun _ => ⟨0, by simp, by simp, by simp⟩
  | cons a rest ih =>
      intro hs
      rw [List.sorted_cons] at hs
      by_cases hpa : p a = true
      · refine ⟨0, by simp, ?_, by simp⟩
        have hall : ∀ x ∈ a :: rest, p x = true := by
          intro x hx
          rcases List.mem_cons.mp hx with rfl | hx
          · exact hpa
          · exact hmono a x (hs.1 x hx) hpa
        rw [List.filter_eq_self.mpr hall]
        rfl
      · obtain ⟨k, hk, hfil, htake⟩ := ih hs.2
        refine ⟨k + 1, by simpa using hk, ?_, ?_⟩
        · rw [List.filter_cons_of_neg (by simpa using hpa), hfil]
          rfl
        · intro x hx
          rw [List.take_succ_cons] at hx
          rcases List.mem_cons.mp hx with rfl | hx
          · simpa using hpa
          · exact htake x hx

/-- The prune step maps the timestamp suffix `grants.drop k` to a deeper
suffix `grants.drop k₁`, and everything before the new suffix has left the
window at the pass time `now'`. -/
theorem pruneWindow_suffix (windowMs now now' : Nat) (grants : List Nat) (k : Nat)
    (hsorted : List.Sorted (· ≤ ·) grants) (hk : k ≤ grants.length)
    (hbound : ∀ g ∈ grants, g ≤ now) (hnow : now ≤ now')
    (htakeold : ∀ x ∈ grants.take k, x + windowMs ≤ now) :
    ∃ k₁, k ≤ k₁ ∧ k₁ ≤ grants.length ∧
      pruneWindow windowMs now' (grants.drop k) = grants.drop k₁ ∧
      ∀ x ∈ grants.take k₁, x + windowMs ≤ now' := by
  have hmono : ∀ a b : Nat, a ≤ b →
      decide (now' - a < windowMs) = true → decide (now' - b < windowMs) = true := by
    intro a b hab ha
    rw [decide_eq_true_eq] at ha ⊢
    omega
  have hsorted' : List.Sorted (· ≤ ·) (grants.drop k) :=
    List.Pairwise.sublist (List.drop_sublist k grants) hsorted
  obtain ⟨k', hk', hfil, htake⟩ :=
    filter_upward_sorted (fun t => decide (now' - t < windowMs)) hmono (grants.drop k) hsorted'
  rw [List.length_drop] at hk'
  refine ⟨k + k', by omega, by omega, ?_, ?_⟩
  · rw [pruneWindow, hfil, List.drop_drop]
  · intro x hx
    rw [List.take_add] at hx
    rcases List.mem_append.mp hx with hx | hx
    · exact le_trans (htakeold x hx) hnow
    · have hpf := htake x hx
      have hxg : x ≤ now := by
        apply hbound
        exact List.mem_of_mem_drop (List.mem_of_mem_take hx)
      rw [decide_eq_false_iff_not] at hpf
      omega

/-- One pass preserves the limiter invariant at the (later) pass time. -/
theorem limiterPass_inv (limit windowMs : Nat) (st : LimiterState) (now now' : Nat)
    (hnow : now ≤ now') (hinv : LimiterInv limit windowMs now st) :
    LimiterInv limit windowMs now' (limiterPass limit windowMs st now') := by
  obtain ⟨hsorted, hbound, ⟨k, hk, hts, htake⟩, hspaced⟩ := hinv
  have hbound' : ∀ g ∈ st.grants, g ≤ now' := fun g hg => le_trans (hbound g hg) hnow
  obtain ⟨k₁, hkk₁, hk₁, hprune, htake₁⟩ :=
    pruneWindow_suffix windowMs now now' st.grants k hsorted hk hbound hnow htake
  simp only [limiterPass, hts, hprune]
  by_cases hcap : limit ≤ (st.grants.drop k₁).length
  · rw [if_pos hcap]
    exact ⟨hsorted, hbound', ⟨k₁, hk₁, rfl, htake₁⟩, hspaced⟩
  · rw [if_neg hcap]
    have hlen : st.grants.length < k₁ + limit := by
      rw [List.length_drop] at hcap
      omega
    refine ⟨?_, ?_, ?_, ?_⟩
    · refine List.pairwise_append.mpr ⟨hsorted, List.sorted_singleton now', ?_⟩
      intro a ha b hb
      rw [List.mem_singleton] at hb
      subst hb
      exact hbound' a ha
    · intro g hg
      rcases List.mem_append.mp hg with hg | hg
      · exact hbound' g hg
      · rw [List.mem_singleton] at hg
        exact le_of_eq hg
    · refine ⟨k₁, ?_, ?_, ?_⟩
      · rw [List.length_append]
        omega
      · rw [List.drop_append_of_le_length hk₁]
      · intro x hx
        rw [List.take_append_of_le_length hk₁] at hx
        exact htake₁ x hx
    · intro i hi
      have hi' : i + limit < st.grants.length + 1 := by
        rw [List.length_append, List.length_singleton] at hi
        exact hi
      by_cases hin : i + limit < st.grants.length
      · have hgi : i < st.grants.length := by omega
        rw [List.get_append i hgi, List.get_append (i + limit) hin]
        exact hspaced i hin
      · have hlast : i + limit = st.grants.length := by omega
        have hlimpos : 0 < limit := by
          by_contra hl
          have hl0 : limit = 0 := by omega
          subst hl0
          rw [List.length_drop] at hcap
          omega
        have hgi : i < st.grants.length := by omega
        rw [List.get_append i hgi]
        have hgetlast : (st.grants ++ [now']).get ⟨i + limit, hi⟩ = now' := by
          have hfin : (⟨i + limit, hi⟩ : Fin (st.grants ++ [now']).length) =
              ⟨st.grants.length, by rw [List.length_append, List.length_singleton]; omega⟩ :=
            Fin.ext hlast
          rw [hfin, get_append_last]
        rw [hgetlast]
        apply htake₁
        have hik : i < k₁ := by omega
        have h1 : i < (st.grants.take k₁).length := by
          rw [List.length_take]
          omega
        have h2 : (st.grants.take k₁).get ⟨i, h1⟩ = st.grants.get ⟨i, hgi⟩ := by
          simp [List.get_eq_getElem, List.getElem_take]
        rw [← h2]
        exact List.get_mem _ _ _

theorem limiterRun_inv (limit windowMs : Nat) :
    ∀ (nows : List Nat) (st : LimiterState) (now₀ : Nat),
      List.Sorted (· ≤ ·) nows → (∀ t ∈ nows, now₀ ≤ t) →
      LimiterInv limit windowMs now₀ st →
      ∃ now₁, LimiterInv limit windowMs now₁ (nows.foldl (limiterPass limit windowMs) st) := by
  intro nows
  induction nows with
  | nil => exact fun st now₀ _ _ hinv => ⟨now₀, hinv⟩
  | cons t rest ih =>
      intro st now₀ hsorted hge hinv
      rw [List.sorted_cons] at hsorted
      simp only [List.foldl_cons]
      exact ih (limiterPass limit windowMs st t) t hsorted.2 (fun u hu => hsorted.1 u hu)
        (limiterPass_inv limit windowMs st now₀ t (hge t (List.mem_cons_self t rest)) hinv)

/-- C6: the `RateLimiter` enforces its sliding window.  (1) The `exa`
provider's engine is built with `{limit := 5, windowMs := 1000}`.  (2) A
pass that still sees `limit` timestamps inside the window grants nothing —
a waiter at capacity is released only after the oldest timestamp has left
the window.  (3) In every execution (every monotone sequence of pass
times), the recorded grant times are such that any `limit + 1` successive
grants span at least `windowMs`: no interval of length `windowMs` ever
contains more than `limit` grants. -/
theorem rateLimiter_sliding_window :
    searchEngineLimiterParams ⟨.exa, none⟩ = (5, 1000) ∧
    (∀ (limit windowMs : Nat) (st : LimiterState) (now : Nat),
      limit ≤ (pruneWindow windowMs now st.timestamps).length →
      (limiterPass limit windowMs st now).grants = st.grants) ∧
    (∀ (limit windowMs : Nat) (nows : List Nat), List.Sorted (· ≤ ·) nows →
      SpacedGrants limit windowMs (limiterRun limit windowMs nows).grants) := by
  refine ⟨rfl, ?_, ?_⟩
  · intro limit windowMs st now hcap
    simp only [limiterPass, if_pos hcap]
  · intro limit windowMs nows hsorted
    have hinit : LimiterInv limit windowMs 0 ⟨[], []⟩ := by
      refine ⟨List.sorted_nil, by simp, ⟨0, by simp, rfl, by simp⟩, ?_⟩
      intro i hi
      simp at hi
    obtain ⟨now₁, hinv⟩ := limiterRun_inv limit windowMs nows ⟨[], []⟩ 0 hsorted
      (fun t _ => Nat.zero_le t) hinit
    exact hinv.2.2.2

/-- Witness for C6 with `{limit := 1, windowMs := 2}` and passes at times
0 and 5: both passes grant, and the two grants are ≥ 2 apart. -/
theorem rateLimiter_sliding_window_witness :
    (limiterRun 1 2 [0, 5]).grants.get ⟨0, by decide⟩ + 2 ≤
      (limiterRun 1 2 [0, 5]).grants.get ⟨1, by decide⟩ :=
  rateLimiter_sliding_window.2.2 1 2 [0, 5] (by decide) 0 (by decide)
